import Mathlib

/-!
Shallow embedding of the face-tracking and alerting engine of
`security_system.py` (class `SecuritySystem`).

Modelling conventions:
* Wall-clock times and distances are rationals (`ℚ`); the Python code uses
  floats only for comparisons against fixed thresholds.
* Embeddings, bounding boxes and frame snapshots are opaque labels (`Nat`);
  the biometric distance `face_recognition.face_distance` is an external
  oracle, modelled as an arbitrary function `fdist : Enc → Enc → ℚ`.
* The Python `dict` `self.face_tracking` is an association list with
  insertion-order semantics: assigning to an existing key replaces the value
  in place, assigning to a fresh key appends, iteration is list order.
* `self.last_detection_time.get('unauthorized', 0)` is modelled by a plain
  rational field `last_alert` (initially `0`).
* `cv2.imwrite` reports failure through its return value (which the Python
  code ignores); `email_sender.send_alert` may raise, and the `try/except`
  around it in `send_unauthorized_alert` is modelled by matching on an
  `Except` value.
-/

namespace SecuritySystem

/-- Opaque label for a face embedding (the biometric vector). -/
abbrev Enc := Nat

/-- Opaque label for a bounding-box location `(top, right, bottom, left)`. -/
abbrev Loc := Nat

/-- Opaque label for a captured frame snapshot. -/
abbrev Frame := Nat

/-- One entry of `self.face_tracking` (the per-track dict built in
`update_face_tracking`). -/
structure Track where
  first_seen : ℚ
  ever_authorized : Bool
  location : Loc
  frame : Frame
  name : Option String
  encoding : Enc
deriving DecidableEq

/-- The policy parameters read from the configuration in `__init__`. -/
structure Config where
  unauthorized_delay : ℚ
  repeat_offender_delay : ℚ
  detection_cooldown : ℚ
  unauthorized_memory_time : ℚ
deriving DecidableEq

/-- The mutable detection state of `SecuritySystem` that
`update_face_tracking` reads and writes: the track table, the global
last-alert stamp, and the offender memory `previously_unauthorized`. -/
structure SysState where
  face_tracking : List (Nat × Track)
  last_alert : ℚ
  previously_unauthorized : List (Enc × ℚ)
deriving DecidableEq

/-- Python dict assignment `tbl[k] = v`: replace in place when the key is
present, append otherwise. -/
def dictUpd (tbl : List (Nat × Track)) (k : Nat) (v : Track) : List (Nat × Track) :=
  if tbl.any (fun p => p.1 = k) then
    tbl.map (fun p => if p.1 = k then (k, v) else p)
  else
    tbl ++ [(k, v)]

/-- Python dict lookup `tbl.get(k)`. -/
def dictFind (tbl : List (Nat × Track)) (k : Nat) : Option Track :=
  (tbl.find? (fun p => p.1 = k)).map Prod.snd

/-- One iteration of the candidate loop of `find_matching_face_id`: skip
tracks whose `first_seen` is 2 seconds old or more, and keep the best
`(face_id, distance)` seen so far (`none` plays the role of the initial
`best_distance = inf`). -/
def fm_step (fdist : Enc → Enc → ℚ) (face_encoding : Enc) (current_time : ℚ)
    (acc : Option (Nat × ℚ)) (p : Nat × Track) : Option (Nat × ℚ) :=
  if current_time - p.2.first_seen < 2 then
    let d := fdist p.2.encoding face_encoding
    match acc with
    | none => if d < 1/2 then some (p.1, d) else none
    | some (bid, bd) => if d < 1/2 ∧ d < bd then some (p.1, d) else some (bid, bd)
  else acc

/-- `find_matching_face_id(face_encoding, current_time, face_tracking_dict)`:
best tracked face within the 0.5 distance threshold, restricted to tracks
with `current_time - first_seen < 2`. -/
def find_matching_face_id (fdist : Enc → Enc → ℚ) (face_encoding : Enc)
    (current_time : ℚ) (tbl : List (Nat × Track)) : Option Nat :=
  (tbl.foldl (fm_step fdist face_encoding current_time) none).map Prod.fst

/-- Accumulator of the two merge loops of `update_face_tracking`: the track
table plus the set `current_face_ids`. -/
structure MergeAcc where
  tbl : List (Nat × Track)
  current_face_ids : List Nat
deriving DecidableEq

/-- The body of the `for name, location, encoding in recognized` loop of
`update_face_tracking`: merge into the matching track (setting
`ever_authorized` to `True`) or create a new track with
`face_id = len(self.face_tracking)`. -/
def update_recognized (fdist : Enc → Enc → ℚ) (current_time : ℚ) (frame : Frame)
    (acc : MergeAcc) (det : String × Loc × Enc) : MergeAcc :=
  match find_matching_face_id fdist det.2.2 current_time acc.tbl with
  | none =>
      let face_id := acc.tbl.length
      { tbl := dictUpd acc.tbl face_id
          ⟨current_time, true, det.2.1, frame, some det.1, det.2.2⟩,
        current_face_ids := acc.current_face_ids ++ [face_id] }
  | some face_id =>
      { tbl := acc.tbl.map (fun p =>
          if p.1 = face_id then
            (face_id, { p.2 with
                        ever_authorized := true,
                        location := det.2.1,
                        frame := frame,
                        encoding := det.2.2 })
          else p),
        current_face_ids := acc.current_face_ids ++ [face_id] }

/-- The body of the `for location, encoding in unrecognized` loop of
`update_face_tracking`: merge into the matching track (leaving
`ever_authorized` untouched) or create a new unauthorized track with
`face_id = len(self.face_tracking)`. -/
def update_unrecognized (fdist : Enc → Enc → ℚ) (current_time : ℚ) (frame : Frame)
    (acc : MergeAcc) (det : Loc × Enc) : MergeAcc :=
  match find_matching_face_id fdist det.2 current_time acc.tbl with
  | none =>
      let face_id := acc.tbl.length
      { tbl := dictUpd acc.tbl face_id
          ⟨current_time, false, det.1, frame, none, det.2⟩,
        current_face_ids := acc.current_face_ids ++ [face_id] }
  | some face_id =>
      { tbl := acc.tbl.map (fun p =>
          if p.1 = face_id then
            (face_id, { p.2 with
                        location := det.1,
                        frame := frame,
                        encoding := det.2 })
          else p),
        current_face_ids := acc.current_face_ids ++ [face_id] }

/-- Both merge loops of `update_face_tracking` (recognized first, then
unrecognized), starting from the current table and an empty
`current_face_ids`. -/
def merge_detections (fdist : Enc → Enc → ℚ) (current_time : ℚ) (frame : Frame)
    (tbl : List (Nat × Track)) (recognized : List (String × Loc × Enc))
    (unrecognized : List (Loc × Enc)) : MergeAcc :=
  unrecognized.foldl (update_unrecognized fdist current_time frame)
    (recognized.foldl (update_recognized fdist current_time frame) ⟨tbl, []⟩)

/-- `is_repeat_offender` check inside the alert loop: some entry of
`previously_unauthorized` is still inside the memory horizon and within the
0.5 distance threshold of the track's current encoding. -/
def is_repeat_offender (fdist : Enc → Enc → ℚ) (cfg : Config) (current_time : ℚ)
    (mem : List (Enc × ℚ)) (enc : Enc) : Bool :=
  mem.any (fun pe =>
    decide (current_time - pe.2 < cfg.unauthorized_memory_time) &&
    decide (fdist pe.1 enc < 1/2))

/-- Result of one call to `send_unauthorized_alert`: which dispatch steps
were attempted and whether they succeeded. -/
structure DispatchLog where
  photo_attempted : Bool
  photo_saved : Bool
  email_attempted : Bool
  email_sent : Bool
deriving DecidableEq

/-- `cv2.imwrite`: reports failure through its boolean return value (the
caller in `send_unauthorized_alert` does not inspect it). -/
def imwrite (photo_ok : Bool) : Bool := photo_ok

/-- `self.email_sender.send_alert(filepath, timestamp)`: may fail with a
transport error. -/
def email_send_alert (email_ok : Bool) : Except String Unit :=
  if email_ok then Except.ok () else Except.error "SMTP transport failure"

/-- `send_unauthorized_alert(frame, face_location, face_id, alert_type)`:
saves the annotated photo, then sends the email inside a `try/except` that
logs a failure instead of raising it; the function always returns. -/
def send_unauthorized_alert (photo_ok email_ok : Bool) : DispatchLog :=
  let saved := imwrite photo_ok
  match email_send_alert email_ok with
  | Except.ok _ => ⟨true, saved, true, true⟩
  | Except.error _ => ⟨true, saved, true, false⟩

/-- One alert dispatched by the alert loop of `update_face_tracking`,
recording the track data at dispatch time and the offender memory against
which the repeat-offender check was evaluated. -/
structure Alert where
  id : Nat
  time : ℚ
  first_seen : ℚ
  ever_authorized : Bool
  encoding : Enc
  repeat_off : Bool
  mem_at_check : List (Enc × ℚ)
  alert_type : String
  log : DispatchLog
deriving DecidableEq

/-- Accumulator of the alert loop of `update_face_tracking`: the global
last-alert stamp, the offender memory, the `faces_to_remove` list and the
alerts dispatched so far this cycle. -/
structure EvalAcc where
  last_alert : ℚ
  mem : List (Enc × ℚ)
  to_remove : List Nat
  alerts : List Alert
deriving DecidableEq

/-- The body of the `for face_id, face_data in self.face_tracking.items()`
alert loop of `update_face_tracking`: compute the repeat-offender flag and
required delay; if the delay has passed for a never-authorized track and the
global cooldown is satisfied, dispatch the alert, stamp the cooldown, insert
a first-time offender into memory, and schedule the track for removal;
otherwise remove authorized tracks older than the 10 s grace window. -/
def eval_track (fdist : Enc → Enc → ℚ) (cfg : Config) (current_time : ℚ)
    (photo_ok email_ok : Bool) (acc : EvalAcc) (p : Nat × Track) : EvalAcc :=
  let elapsed := current_time - p.2.first_seen
  let rep := is_repeat_offender fdist cfg current_time acc.mem p.2.encoding
  let required_delay := if rep then cfg.repeat_offender_delay else cfg.unauthorized_delay
  if required_delay ≤ elapsed ∧ p.2.ever_authorized = false then
    if cfg.detection_cooldown ≤ current_time - acc.last_alert then
      let atype := if rep then "REPEAT OFFENDER" else "UNAUTHORIZED"
      let log := send_unauthorized_alert photo_ok email_ok
      { last_alert := current_time,
        mem := if rep then acc.mem else acc.mem ++ [(p.2.encoding, current_time)],
        to_remove := acc.to_remove ++ [p.1],
        alerts := acc.alerts ++
          [⟨p.1, current_time, p.2.first_seen, p.2.ever_authorized,
            p.2.encoding, rep, acc.mem, atype, log⟩] }
    else acc
  else if p.2.ever_authorized = true ∧ 10 < elapsed then
    { acc with to_remove := acc.to_remove ++ [p.1] }
  else acc

/-- The whole alert loop over the merged track table. -/
def eval_tracks (fdist : Enc → Enc → ℚ) (cfg : Config) (current_time : ℚ)
    (photo_ok email_ok : Bool) (last_alert : ℚ) (mem : List (Enc × ℚ))
    (tbl : List (Nat × Track)) : EvalAcc :=
  tbl.foldl (eval_track fdist cfg current_time photo_ok email_ok)
    ⟨last_alert, mem, [], []⟩

/-- `for face_id in faces_to_remove: del self.face_tracking[face_id]`. -/
def remove_flagged (tbl : List (Nat × Track)) (ids : List Nat) : List (Nat × Track) :=
  tbl.filter (fun p => !(ids.contains p.1))

/-- The absence-reaping pass: remove tracks not in `current_face_ids` whose
`first_seen` is more than 2 seconds old. -/
def remove_absent (current_time : ℚ) (current_face_ids : List Nat)
    (tbl : List (Nat × Track)) : List (Nat × Track) :=
  tbl.filter (fun p =>
    current_face_ids.contains p.1 || decide (current_time - p.2.first_seen ≤ 2))

/-- The final cleanup of `previously_unauthorized`: keep entries younger
than the memory horizon. -/
def prune_memory (cfg : Config) (current_time : ℚ)
    (mem : List (Enc × ℚ)) : List (Enc × ℚ) :=
  mem.filter (fun pe => decide (current_time - pe.2 < cfg.unauthorized_memory_time))

/-- `update_face_tracking(recognized, unrecognized, frame)` at clock reading
`current_time`, returning the new detection state and the alerts dispatched
this cycle. The phases mirror the source lines in order: merge all
detections, run the alert loop, delete `faces_to_remove`, reap absent
tracks, prune the offender memory. -/
def update_face_tracking (fdist : Enc → Enc → ℚ) (cfg : Config)
    (photo_ok email_ok : Bool) (s : SysState) (current_time : ℚ)
    (recognized : List (String × Loc × Enc)) (unrecognized : List (Loc × Enc))
    (frame : Frame) : SysState × List Alert :=
  let m := merge_detections fdist current_time frame s.face_tracking recognized unrecognized
  let ev := eval_tracks fdist cfg current_time photo_ok email_ok
    s.last_alert s.previously_unauthorized m.tbl
  let t1 := remove_flagged m.tbl ev.to_remove
  let t2 := remove_absent current_time m.current_face_ids t1
  (⟨t2, ev.last_alert, prune_memory cfg current_time ev.mem⟩, ev.alerts)

/-- Input of one processing cycle: the sampled clock and the oracle's
partition of the frame's detections. -/
structure CycleInput where
  time : ℚ
  recognized : List (String × Loc × Enc)
  unrecognized : List (Loc × Enc)
  frame : Frame
deriving DecidableEq

/-- A sequence of processing cycles, threading the detection state and
accumulating every dispatched alert. -/
def run_cycles (fdist : Enc → Enc → ℚ) (cfg : Config) (photo_ok email_ok : Bool)
    (s : SysState) (cycles : List CycleInput) : SysState × List Alert :=
  cycles.foldl (fun acc c =>
    let r := update_face_tracking fdist cfg photo_ok email_ok acc.1
      c.time c.recognized c.unrecognized c.frame
    (r.1, acc.2 ++ r.2)) (s, [])

/-- First index of the minimum of a list of distances (`np.argmin`). -/
def argmin_idx (l : List ℚ) : Nat :=
  (l.foldl (fun acc d =>
    match acc.2.2 with
    | none => (acc.1 + 1, acc.1, some d)
    | some best => if d < best then (acc.1 + 1, acc.1, some d) else (acc.1 + 1, acc.2.1, acc.2.2))
    (0, 0, none)).2.1

/-- The classification loop of `recognize_face`, applied to the oracle's
`(location, encoding)` detections: with known faces loaded, compare against
all of them, take the best match, and accept its name when the best distance
is within the tolerance; with no known faces, treat every detection as
unauthorized. -/
def recognize_face (fdist : Enc → Enc → ℚ) (known_faces : List Enc)
    (known_names : List String) (tolerance : ℚ) (dets : List (Loc × Enc)) :
    List (String × Loc × Enc) × List (Loc × Enc) :=
  if dets.isEmpty then ([], []) else
  dets.foldl (fun acc det =>
    if 0 < known_faces.length then
      let ds := known_faces.map (fun kf => fdist kf det.2)
      let nm :=
        if 0 < ds.length then
          let best := argmin_idx ds
          if ds.getD best 0 ≤ tolerance then known_names.getD best "Unknown"
          else "Unknown"
        else "Unknown"
      if nm = "Unknown" then (acc.1, acc.2 ++ [det])
      else (acc.1 ++ [(nm, det.1, det.2)], acc.2)
    else (acc.1, acc.2 ++ [det])) ([], [])

/-- Concrete discrete distance oracle used for witnesses and
counterexamples: distance 0 between equal labels, 1 otherwise. -/
def fdistD : Enc → Enc → ℚ := fun a b => if a = b then 0 else 1

/-- The default configuration of `config.py`: `unauthorized_delay = 5`,
`repeat_offender_delay = 1`, `detection_cooldown = 30`,
`unauthorized_memory_time = 3600`. -/
def cfgD : Config := ⟨5, 1, 30, 3600⟩

/-- The initial detection state of `__init__`: empty track table, empty
`last_detection_time` (so the default stamp is 0), empty offender memory. -/
def initState : SysState := ⟨[], 0, []⟩

/-! ### Association-list lemmas -/

theorem dictFind_mem {l : List (Nat × Track)} {id : Nat} {td : Track}
    (h : dictFind l id = some td) : (id, td) ∈ l := by
  unfold dictFind at h
  rcases Option.map_eq_some'.1 h with ⟨p, hp, hv⟩
  have hk := List.find?_some hp
  have hm := List.mem_of_find?_eq_some hp
  cases p with
  | mk k v =>
    simp only [decide_eq_true_eq] at hk
    subst hk
    subst hv
    exact hm

theorem mem_dictFind {l : List (Nat × Track)} {id : Nat} {td : Track}
    (hnd : (l.map Prod.fst).Nodup) (h : (id, td) ∈ l) : dictFind l id = some td := by
  induction l with
  | nil => cases h
  | cons p l ih =>
    simp only [List.map_cons, List.nodup_cons, List.mem_map] at hnd
    rcases List.mem_cons.1 h with h | h
    · subst h
      simp [dictFind]
    · have hne : p.1 ≠ id := by
        intro he
        exact hnd.1 ⟨(id, td), h, by simp [he]⟩
      have := ih hnd.2 h
      simpa [dictFind, List.find?_cons, hne] using this

theorem dictFind_eq_none {l : List (Nat × Track)} {id : Nat}
    (h : ∀ p ∈ l, p.1 ≠ id) : dictFind l id = none := by
  unfold dictFind
  rw [List.find?_eq_none.2]
  · rfl
  · intro p hp
    simpa using h p hp

theorem dictFind_map_keyfix {l : List (Nat × Track)} {g : Nat × Track → Nat × Track}
    (hg : ∀ p, (g p).1 = p.1) (id : Nat) :
    dictFind (l.map g) id = (dictFind l id).map (fun td => (g (id, td)).2) := by
  induction l with
  | nil => simp [dictFind]
  | cons p l ih =>
    obtain ⟨k, v⟩ := p
    by_cases hk : k = id
    · subst hk
      simp only [dictFind, List.map_cons]
      rw [List.find?_cons_of_pos _ (by simp [hg (k, v)]),
        List.find?_cons_of_pos _ (by simp)]
      simp
    · simp only [dictFind, List.map_cons]
      rw [List.find?_cons_of_neg _ (by simp [hg (k, v)]; exact hk),
        List.find?_cons_of_neg _ (by simp; exact hk)]
      exact ih

/-! ### C6: offender memory recall window -/

theorem is_repeat_offender_filter_live (fdist : Enc → Enc → ℚ) (cfg : Config)
    (t : ℚ) (q : Enc) (mem : List (Enc × ℚ)) :
    is_repeat_offender fdist cfg t mem q =
      is_repeat_offender fdist cfg t
        (mem.filter (fun p => decide (t - p.2 < cfg.unauthorized_memory_time))) q := by
  unfold is_repeat_offender
  induction mem with
  | nil => rfl
  | cons p mem ih =>
    by_cases hl : t - p.2 < cfg.unauthorized_memory_time
    · rw [List.filter_cons_of_pos (by rw [decide_eq_true_eq]; exact hl)]
      simp only [List.any_cons]
      rw [ih]
    · rw [List.filter_cons_of_neg (by rw [decide_eq_true_eq]; exact hl)]
      simp only [List.any_cons]
      have hfalse : decide (t - p.2 < cfg.unauthorized_memory_time) = false :=
        decide_eq_false hl
      rw [hfalse, Bool.false_and, Bool.false_or]
      exact ih

/-- C6. An embedding inserted into Offender Memory at time `T` is reported as
a repeat-offender match at any cycle time `t` with `t - T` strictly below
`unauthorized_memory_time` (provided the distance is below the 0.5
threshold); an entry with `t - T` at or beyond the horizon is treated as
absent — the lookup over the memory equals the lookup over the memory with
expired entries removed, so a memory all of whose entries are expired
reports no match. -/
theorem offender_recall_window (fdist : Enc → Enc → ℚ) (cfg : Config) (t : ℚ)
    (q : Enc) (mem : List (Enc × ℚ)) :
    (∀ e T, (e, T) ∈ mem → fdist e q < 1/2 → t - T < cfg.unauthorized_memory_time →
      is_repeat_offender fdist cfg t mem q = true) ∧
    ((∀ p ∈ mem, cfg.unauthorized_memory_time ≤ t - p.2) →
      is_repeat_offender fdist cfg t mem q = false) ∧
    (is_repeat_offender fdist cfg t mem q =
      is_repeat_offender fdist cfg t
        (mem.filter (fun p => decide (t - p.2 < cfg.unauthorized_memory_time))) q) := by
  refine ⟨?_, ?_, is_repeat_offender_filter_live fdist cfg t q mem⟩
  · intro e T hmem hd hl
    unfold is_repeat_offender
    rw [List.any_eq_true]
    refine ⟨(e, T), hmem, ?_⟩
    rw [Bool.and_eq_true, decide_eq_true_eq, decide_eq_true_eq]
    exact ⟨hl, hd⟩
  · intro hall
    unfold is_repeat_offender
    rw [List.any_eq_false]
    intro p hp hcontra
    rw [Bool.and_eq_true, decide_eq_true_eq, decide_eq_true_eq] at hcontra
    exact absurd hcontra.1 (not_lt.2 (hall p hp))

/-- Witness for C6: the spec scenario — insert at `T = 0` with horizon 3600;
a query at `t = 3599` matches and a query at `t = 3601` does not. -/
theorem offender_recall_window_witness :
    is_repeat_offender fdistD cfgD 3599 [(0, 0)] 0 = true ∧
    is_repeat_offender fdistD cfgD 3601 [(0, 0)] 0 = false := by
  constructor
  · exact (offender_recall_window fdistD cfgD 3599 0 [(0, 0)]).1 0 0 (by simp)
      (by norm_num [fdistD]) (by norm_num [cfgD])
  · refine (offender_recall_window fdistD cfgD 3601 0 [(0, 0)]).2.1 ?_
    intro p hp
    rcases List.mem_singleton.1 hp with rfl
    norm_num [cfgD]

/-! ### C10: no authorized faces loaded -/

theorem foldl_collect_unrec (dets : List (Loc × Enc)) :
    ∀ acc : List (String × Loc × Enc) × List (Loc × Enc),
      dets.foldl (fun acc det => (acc.1, acc.2 ++ [det])) acc = (acc.1, acc.2 ++ dets) := by
  induction dets with
  | nil => intro acc; simp
  | cons d ds ih =>
    intro acc
    simp only [List.foldl_cons]
    rw [ih]
    simp

/-- C10. With no authorized embeddings loaded, `recognize_face` classifies
every detection as unrecognized: the recognized list is empty and the
unrecognized list is exactly the list of detections, in order. -/
theorem recognize_face_no_known (fdist : Enc → Enc → ℚ)
    (known_names : List String) (tolerance : ℚ) (dets : List (Loc × Enc)) :
    recognize_face fdist [] known_names tolerance dets = ([], dets) := by
  unfold recognize_face
  by_cases h : dets.isEmpty
  · simp [h, List.isEmpty_iff.1 h]
  · simp only [h, if_false, List.length_nil, lt_self_iff_false, if_false]
    rw [foldl_collect_unrec dets ([], [])]
    simp

/-! ### Branch equations for the alert-loop body -/

theorem eval_track_fire (fdist : Enc → Enc → ℚ) (cfg : Config) (t : ℚ)
    (pok eok : Bool) (acc : EvalAcc) (p : Nat × Track)
    (h1 : (if is_repeat_offender fdist cfg t acc.mem p.2.encoding then
        cfg.repeat_offender_delay else cfg.unauthorized_delay) ≤ t - p.2.first_seen ∧
      p.2.ever_authorized = false)
    (h2 : cfg.detection_cooldown ≤ t - acc.last_alert) :
    eval_track fdist cfg t pok eok acc p =
      ⟨t,
       (if is_repeat_offender fdist cfg t acc.mem p.2.encoding then acc.mem
        else acc.mem ++ [(p.2.encoding, t)]),
       acc.to_remove ++ [p.1],
       acc.alerts ++
         [⟨p.1, t, p.2.first_seen, p.2.ever_authorized, p.2.encoding,
           is_repeat_offender fdist cfg t acc.mem p.2.encoding, acc.mem,
           (if is_repeat_offender fdist cfg t acc.mem p.2.encoding then
             "REPEAT OFFENDER" else "UNAUTHORIZED"),
           send_unauthorized_alert pok eok⟩]⟩ := by
  simp only [eval_track]
  rw [if_pos h1, if_pos h2]

theorem eval_track_cooldown (fdist : Enc → Enc → ℚ) (cfg : Config) (t : ℚ)
    (pok eok : Bool) (acc : EvalAcc) (p : Nat × Track)
    (h1 : (if is_repeat_offender fdist cfg t acc.mem p.2.encoding then
        cfg.repeat_offender_delay else cfg.unauthorized_delay) ≤ t - p.2.first_seen ∧
      p.2.ever_authorized = false)
    (h2 : ¬ cfg.detection_cooldown ≤ t - acc.last_alert) :
    eval_track fdist cfg t pok eok acc p = acc := by
  simp only [eval_track]
  rw [if_pos h1, if_neg h2]

theorem eval_track_grace (fdist : Enc → Enc → ℚ) (cfg : Config) (t : ℚ)
    (pok eok : Bool) (acc : EvalAcc) (p : Nat × Track)
    (h1 : ¬ ((if is_repeat_offender fdist cfg t acc.mem p.2.encoding then
        cfg.repeat_offender_delay else cfg.unauthorized_delay) ≤ t - p.2.first_seen ∧
      p.2.ever_authorized = false))
    (h3 : p.2.ever_authorized = true ∧ 10 < t - p.2.first_seen) :
    eval_track fdist cfg t pok eok acc p =
      { acc with to_remove := acc.to_remove ++ [p.1] } := by
  simp only [eval_track]
  rw [if_neg h1, if_pos h3]

theorem eval_track_skip (fdist : Enc → Enc → ℚ) (cfg : Config) (t : ℚ)
    (pok eok : Bool) (acc : EvalAcc) (p : Nat × Track)
    (h1 : ¬ ((if is_repeat_offender fdist cfg t acc.mem p.2.encoding then
        cfg.repeat_offender_delay else cfg.unauthorized_delay) ≤ t - p.2.first_seen ∧
      p.2.ever_authorized = false))
    (h3 : ¬ (p.2.ever_authorized = true ∧ 10 < t - p.2.first_seen)) :
    eval_track fdist cfg t pok eok acc p = acc := by
  simp only [eval_track]
  rw [if_neg h1, if_neg h3]

/-! ### The alert-loop fold: dispatched alerts and the cooldown stamp -/

theorem eval_fold_spec (fdist : Enc → Enc → ℚ) (cfg : Config) (t : ℚ)
    (pok eok : Bool) (l : List (Nat × Track)) :
    ∀ acc : EvalAcc, ∃ new : List Alert,
      (l.foldl (eval_track fdist cfg t pok eok) acc).alerts = acc.alerts ++ new ∧
      (new = [] → (l.foldl (eval_track fdist cfg t pok eok) acc).last_alert = acc.last_alert) ∧
      (new ≠ [] → (l.foldl (eval_track fdist cfg t pok eok) acc).last_alert = t ∧
        cfg.detection_cooldown ≤ t - acc.last_alert) ∧
      (∀ a ∈ new, a.time = t ∧ a.ever_authorized = false ∧
        a.repeat_off = is_repeat_offender fdist cfg t a.mem_at_check a.encoding ∧
        (if a.repeat_off then cfg.repeat_offender_delay else cfg.unauthorized_delay) ≤
          t - a.first_seen ∧
        a.log = send_unauthorized_alert pok eok) := by
  induction l with
  | nil =>
    intro acc
    exact ⟨[], by simp, by simp, by simp, by simp⟩
  | cons p l ih =>
    intro acc
    rw [List.foldl_cons]
    by_cases h1 : (if is_repeat_offender fdist cfg t acc.mem p.2.encoding then
        cfg.repeat_offender_delay else cfg.unauthorized_delay) ≤ t - p.2.first_seen ∧
        p.2.ever_authorized = false
    · by_cases h2 : cfg.detection_cooldown ≤ t - acc.last_alert
      · rw [eval_track_fire fdist cfg t pok eok acc p h1 h2]
        obtain ⟨new, ha, hn, hs, hg⟩ := ih _
        refine ⟨⟨p.1, t, p.2.first_seen, p.2.ever_authorized, p.2.encoding,
          is_repeat_offender fdist cfg t acc.mem p.2.encoding, acc.mem,
          (if is_repeat_offender fdist cfg t acc.mem p.2.encoding then
            "REPEAT OFFENDER" else "UNAUTHORIZED"),
          send_unauthorized_alert pok eok⟩ :: new, ?_, ?_, ?_, ?_⟩
        · rw [ha]
          simp
        · intro h
          cases h
        · intro _
          refine ⟨?_, h2⟩
          rcases eq_or_ne new [] with rfl | hne
          · simpa using hn rfl
          · exact (hs hne).1
        · intro a hmem
          rcases List.mem_cons.1 hmem with rfl | hmem
          · exact ⟨rfl, h1.2, rfl, h1.1, rfl⟩
          · exact hg a hmem
      · rw [eval_track_cooldown fdist cfg t pok eok acc p h1 h2]
        exact ih acc
    · by_cases h3 : p.2.ever_authorized = true ∧ 10 < t - p.2.first_seen
      · rw [eval_track_grace fdist cfg t pok eok acc p h1 h3]
        obtain ⟨new, ha, hn, hs, hg⟩ := ih { acc with to_remove := acc.to_remove ++ [p.1] }
        exact ⟨new, ha, hn, hs, hg⟩
      · rw [eval_track_skip fdist cfg t pok eok acc p h1 h3]
        exact ih acc

/-! ### C1: dwell correctness -/

/-- C1. Every alert dispatched by a cycle of `update_face_tracking` at clock
reading `t` is for a track that was never authorized, and fires only when
`t` minus the track's `first_seen` is at least the applicable dwell:
`repeat_offender_delay` when the track's current embedding matches
(distance < 0.5) a live Offender Memory entry (as recorded in the alert's
`mem_at_check` and `repeat_off` fields), `unauthorized_delay` otherwise.
Contrapositively, at any cycle where the dwell has not yet elapsed, no alert
for that track is dispatched. -/
theorem alert_fires_only_after_dwell (fdist : Enc → Enc → ℚ) (cfg : Config)
    (pok eok : Bool) (s : SysState) (t : ℚ)
    (recognized : List (String × Loc × Enc)) (unrecognized : List (Loc × Enc))
    (fr : Frame) :
    ∀ a ∈ (update_face_tracking fdist cfg pok eok s t recognized unrecognized fr).2,
      a.time = t ∧ a.ever_authorized = false ∧
      a.repeat_off = is_repeat_offender fdist cfg t a.mem_at_check a.encoding ∧
      (if a.repeat_off then cfg.repeat_offender_delay else cfg.unauthorized_delay) ≤
        t - a.first_seen := by
  intro a ha
  simp only [update_face_tracking, eval_tracks] at ha
  obtain ⟨new, halerts, _, _, hgood⟩ := eval_fold_spec fdist cfg t pok eok
    (merge_detections fdist t fr s.face_tracking recognized unrecognized).tbl
    ⟨s.last_alert, s.previously_unauthorized, [], []⟩
  rw [halerts] at ha
  simp only [List.nil_append] at ha
  obtain ⟨h1, h2, h3, h4, _⟩ := hgood a ha
  exact ⟨h1, h2, h3, h4⟩

/-- A state with one never-authorized track created at time 100, used as the
concrete input of witnesses. -/
def stateW : SysState := ⟨[(0, ⟨100, false, 10, 0, none, 0⟩)], 0, []⟩

/-- The alert that `update_face_tracking` dispatches from `stateW` at time
105 with no detections. -/
def alertW : Alert :=
  ⟨0, 105, 100, false, 0, false, [], "UNAUTHORIZED", ⟨true, true, true, true⟩⟩

theorem alertW_mem :
    (update_face_tracking fdistD cfgD true true stateW 105 [] [] 0).2 = [alertW] := by
  norm_num [update_face_tracking, merge_detections, eval_tracks, eval_track,
    is_repeat_offender, remove_flagged, remove_absent, prune_memory, stateW,
    alertW, fdistD, cfgD, send_unauthorized_alert, imwrite, email_send_alert]

/-- Witness for C1, discharging its membership hypothesis at the concrete
alert dispatched from `stateW` at time 105. -/
theorem alert_fires_only_after_dwell_witness :
    alertW.time = 105 ∧ alertW.ever_authorized = false ∧
    alertW.repeat_off = is_repeat_offender fdistD cfgD 105 alertW.mem_at_check alertW.encoding ∧
    (if alertW.repeat_off then cfgD.repeat_offender_delay else cfgD.unauthorized_delay) ≤
      105 - alertW.first_seen :=
  alert_fires_only_after_dwell fdistD cfgD true true stateW 105 [] [] 0 alertW
    (by rw [alertW_mem]; exact List.mem_singleton.2 rfl)

/-! ### Cycle-level alert/stamp behaviour, for the cooldown theorem -/

theorem update_cycle_spec (fdist : Enc → Enc → ℚ) (cfg : Config)
    (pok eok : Bool) (s : SysState) (t : ℚ)
    (recognized : List (String × Loc × Enc)) (unrecognized : List (Loc × Enc))
    (fr : Frame) :
    ((update_face_tracking fdist cfg pok eok s t recognized unrecognized fr).2 = [] →
      (update_face_tracking fdist cfg pok eok s t recognized unrecognized fr).1.last_alert =
        s.last_alert) ∧
    ((update_face_tracking fdist cfg pok eok s t recognized unrecognized fr).2 ≠ [] →
      (update_face_tracking fdist cfg pok eok s t recognized unrecognized fr).1.last_alert = t ∧
      cfg.detection_cooldown ≤ t - s.last_alert) ∧
    (∀ a ∈ (update_face_tracking fdist cfg pok eok s t recognized unrecognized fr).2,
      a.time = t) := by
  obtain ⟨new, halerts, hn, hs, hgood⟩ := eval_fold_spec fdist cfg t pok eok
    (merge_detections fdist t fr s.face_tracking recognized unrecognized).tbl
    ⟨s.last_alert, s.previously_unauthorized, [], []⟩
  simp only [update_face_tracking, eval_tracks]
  simp only [List.nil_append] at halerts
  refine ⟨?_, ?_, ?_⟩
  · intro h
    rw [halerts] at h
    exact hn h
  · intro h
    rw [halerts] at h
    exact hs h
  · intro a ha
    rw [halerts] at ha
    exact (hgood a ha).1

/-! ### C2: global cooldown spacing -/

theorem run_fold_cooldown (fdist : Enc → Enc → ℚ) (cfg : Config) (pok eok : Bool)
    (cycles : List CycleInput) :
    ∀ (s : SysState) (done : List Alert),
      (∀ a ∈ done, a.time ≤ s.last_alert) →
      (∀ a ∈ done, ∀ c ∈ cycles, a.time ≤ c.time) →
      (∀ a ∈ done, ∀ b ∈ done, a.time < b.time → cfg.detection_cooldown ≤ b.time - a.time) →
      cycles.Pairwise (fun c d => c.time ≤ d.time) →
      ∀ a ∈ (cycles.foldl (fun acc c =>
          let r := update_face_tracking fdist cfg pok eok acc.1
            c.time c.recognized c.unrecognized c.frame
          (r.1, acc.2 ++ r.2)) (s, done)).2,
        ∀ b ∈ (cycles.foldl (fun acc c =>
          let r := update_face_tracking fdist cfg pok eok acc.1
            c.time c.recognized c.unrecognized c.frame
          (r.1, acc.2 ++ r.2)) (s, done)).2,
          a.time < b.time → cfg.detection_cooldown ≤ b.time - a.time := by
  induction cycles with
  | nil =>
    intro s done _ _ hI3 _
    simpa using hI3
  | cons c cs ih =>
    intro s done hI1 hI2 hI3 hpw
    rw [List.foldl_cons]
    obtain ⟨hcs, hpw2⟩ := List.pairwise_cons.1 hpw
    obtain ⟨hnone, hsome, htimes⟩ := update_cycle_spec fdist cfg pok eok s
      c.time c.recognized c.unrecognized c.frame
    refine ih _ _ ?_ ?_ ?_ hpw2
    · intro a ha
      rcases List.mem_append.1 ha with ha | ha
      · rcases eq_or_ne (update_face_tracking fdist cfg pok eok s
            c.time c.recognized c.unrecognized c.frame).2 [] with h | h
        · rw [hnone h]
          exact hI1 a ha
        · rw [(hsome h).1]
          exact hI2 a ha c (List.mem_cons_self c cs)
      · rcases eq_or_ne (update_face_tracking fdist cfg pok eok s
            c.time c.recognized c.unrecognized c.frame).2 [] with h | h
        · rw [h] at ha
          cases ha
        · rw [(hsome h).1, htimes a ha]
    · intro a ha d hd
      rcases List.mem_append.1 ha with ha | ha
      · exact hI2 a ha d (List.mem_cons_of_mem c hd)
      · rw [htimes a ha]
        exact hcs d hd
    · intro a ha b hb hab
      rcases List.mem_append.1 ha with ha | ha <;>
        rcases List.mem_append.1 hb with hb | hb
      · exact hI3 a ha b hb hab
      · have hb2 : b.time = c.time := htimes b hb
        have hne : (update_face_tracking fdist cfg pok eok s
            c.time c.recognized c.unrecognized c.frame).2 ≠ [] := by
          intro h
          rw [h] at hb
          cases hb
        have hcd := (hsome hne).2
        have ha1 := hI1 a ha
        rw [hb2]
        linarith
      · have ha2 : a.time = c.time := htimes a ha
        have hble : b.time ≤ c.time := hI2 b hb c (List.mem_cons_self c cs)
        rw [ha2] at hab
        exact absurd hab (not_lt.2 hble)
      · rw [htimes a ha, htimes b hb] at hab
        exact absurd hab (lt_irrefl _)

/-- C2. For any execution over cycles with nondecreasing clock readings, any
two alerts dispatched at times `t1 < t2` satisfy
`t2 - t1 ≥ detection_cooldown`: the global last-alert stamp enforces the
spacing regardless of which tracks fired, and within a single cycle the
stamp written by the first dispatch suppresses every later qualifying track
of that cycle (so two alerts never carry distinct times closer than the
cooldown). -/
theorem cooldown_spacing (fdist : Enc → Enc → ℚ) (cfg : Config) (pok eok : Bool)
    (s : SysState) (cycles : List CycleInput)
    (hpw : cycles.Pairwise (fun c d => c.time ≤ d.time)) :
    ∀ a ∈ (run_cycles fdist cfg pok eok s cycles).2,
      ∀ b ∈ (run_cycles fdist cfg pok eok s cycles).2,
        a.time < b.time → cfg.detection_cooldown ≤ b.time - a.time := by
  have h := run_fold_cooldown fdist cfg pok eok cycles s []
    (by simp) (by simp) (by simp) hpw
  simpa [run_cycles] using h

/-- The four-cycle trace of the witness for C2: an unauthorized track is
created at t = 100 and alerts at t = 105; a second one is created at t = 131
and alerts at t = 136, 31 seconds after the first alert. -/
def cyclesW : List CycleInput :=
  [⟨100, [], [(10, 0)], 0⟩, ⟨105, [], [], 0⟩, ⟨131, [], [(11, 1)], 0⟩, ⟨136, [], [], 0⟩]

/-- The second alert dispatched along `cyclesW`. -/
def alertW2 : Alert :=
  ⟨0, 136, 131, false, 1, false, [(0, 105)], "UNAUTHORIZED", ⟨true, true, true, true⟩⟩

theorem cyclesW_alerts :
    (run_cycles fdistD cfgD true true initState cyclesW).2 = [alertW, alertW2] := by
  norm_num [run_cycles, update_face_tracking, merge_detections, update_unrecognized,
    update_recognized, find_matching_face_id, fm_step, dictUpd, eval_tracks, eval_track,
    is_repeat_offender, remove_flagged, remove_absent, prune_memory, initState,
    cyclesW, alertW, alertW2, fdistD, cfgD, send_unauthorized_alert, imwrite,
    email_send_alert]

/-- Witness for C2, discharging its hypotheses on the concrete trace
`cyclesW` and its two alerts at times 105 and 136. -/
theorem cooldown_spacing_witness :
    List.Pairwise (fun c d => c.time ≤ d.time) cyclesW ∧
    cfgD.detection_cooldown ≤ alertW2.time - alertW.time := by
  have hpw : List.Pairwise (fun (c : CycleInput) d => c.time ≤ d.time) cyclesW := by
    norm_num [cyclesW, List.pairwise_cons]
  refine ⟨hpw, ?_⟩
  exact cooldown_spacing fdistD cfgD true true initState cyclesW hpw
    alertW (by rw [cyclesW_alerts]; simp)
    alertW2 (by rw [cyclesW_alerts]; simp)
    (by norm_num [alertW, alertW2])

/-! ### C9: dispatch failures do not roll back the alert decision -/

/-- All fields of an alert except the dispatch log. -/
def alert_core (a : Alert) :
    Nat × ℚ × ℚ × Bool × Enc × Bool × List (Enc × ℚ) × String :=
  (a.id, a.time, a.first_seen, a.ever_authorized, a.encoding, a.repeat_off,
    a.mem_at_check, a.alert_type)

theorem send_unauthorized_alert_attempts (photo_ok email_ok : Bool) :
    (send_unauthorized_alert photo_ok email_ok).photo_attempted = true ∧
    (send_unauthorized_alert photo_ok email_ok).email_attempted = true := by
  cases email_ok <;> simp [send_unauthorized_alert, imwrite, email_send_alert]

theorem eval_fold_flag_indep (fdist : Enc → Enc → ℚ) (cfg : Config) (t : ℚ)
    (pok eok pok2 eok2 : Bool) (l : List (Nat × Track)) :
    ∀ acc acc2 : EvalAcc,
      acc.last_alert = acc2.last_alert → acc.mem = acc2.mem →
      acc.to_remove = acc2.to_remove →
      acc.alerts.map alert_core = acc2.alerts.map alert_core →
      (l.foldl (eval_track fdist cfg t pok eok) acc).last_alert =
        (l.foldl (eval_track fdist cfg t pok2 eok2) acc2).last_alert ∧
      (l.foldl (eval_track fdist cfg t pok eok) acc).mem =
        (l.foldl (eval_track fdist cfg t pok2 eok2) acc2).mem ∧
      (l.foldl (eval_track fdist cfg t pok eok) acc).to_remove =
        (l.foldl (eval_track fdist cfg t pok2 eok2) acc2).to_remove ∧
      (l.foldl (eval_track fdist cfg t pok eok) acc).alerts.map alert_core =
        (l.foldl (eval_track fdist cfg t pok2 eok2) acc2).alerts.map alert_core := by
  induction l with
  | nil =>
    intro acc acc2 h1 h2 h3 h4
    exact ⟨h1, h2, h3, h4⟩
  | cons p l ih =>
    intro acc acc2 h1 h2 h3 h4
    rw [List.foldl_cons, List.foldl_cons]
    by_cases hf : (if is_repeat_offender fdist cfg t acc.mem p.2.encoding then
        cfg.repeat_offender_delay else cfg.unauthorized_delay) ≤ t - p.2.first_seen ∧
        p.2.ever_authorized = false
    · have hf2 : (if is_repeat_offender fdist cfg t acc2.mem p.2.encoding then
          cfg.repeat_offender_delay else cfg.unauthorized_delay) ≤ t - p.2.first_seen ∧
          p.2.ever_authorized = false := by rwa [← h2]
      by_cases hc : cfg.detection_cooldown ≤ t - acc.last_alert
      · have hc2 : cfg.detection_cooldown ≤ t - acc2.last_alert := by rwa [← h1]
        rw [eval_track_fire fdist cfg t pok eok acc p hf hc,
          eval_track_fire fdist cfg t pok2 eok2 acc2 p hf2 hc2]
        refine ih _ _ rfl ?_ ?_ ?_
        · simp only [← h2]
        · simp only [← h3]
        · simp only [List.map_append, h4, ← h2, List.map_cons, List.map_nil]
          rfl
      · have hc2 : ¬ cfg.detection_cooldown ≤ t - acc2.last_alert := by rwa [← h1]
        rw [eval_track_cooldown fdist cfg t pok eok acc p hf hc,
          eval_track_cooldown fdist cfg t pok2 eok2 acc2 p hf2 hc2]
        exact ih _ _ h1 h2 h3 h4
    · have hf2 : ¬ ((if is_repeat_offender fdist cfg t acc2.mem p.2.encoding then
          cfg.repeat_offender_delay else cfg.unauthorized_delay) ≤ t - p.2.first_seen ∧
          p.2.ever_authorized = false) := by rwa [← h2]
      by_cases hg : p.2.ever_authorized = true ∧ 10 < t - p.2.first_seen
      · rw [eval_track_grace fdist cfg t pok eok acc p hf hg,
          eval_track_grace fdist cfg t pok2 eok2 acc2 p hf2 hg]
        exact ih _ _ h1 h2 (by simp only [h3]) h4
      · rw [eval_track_skip fdist cfg t pok eok acc p hf hg,
          eval_track_skip fdist cfg t pok2 eok2 acc2 p hf2 hg]
        exact ih _ _ h1 h2 h3 h4

/-- C9. When alert dispatch is attempted, failure of the photo-save or email
step never rolls back the alert decision: the post-state of
`update_face_tracking` (cooldown stamp, track removals, offender-memory
insertion) is identical for every combination of step outcomes, the same
alerts (up to the recorded dispatch log) are dispatched, and in every
dispatch both the photo step and the email step are attempted — a photo
failure does not prevent the email attempt and vice versa. -/
theorem dispatch_failure_no_rollback (fdist : Enc → Enc → ℚ) (cfg : Config)
    (pok eok pok2 eok2 : Bool) (s : SysState) (t : ℚ)
    (recognized : List (String × Loc × Enc)) (unrecognized : List (Loc × Enc))
    (fr : Frame) :
    (update_face_tracking fdist cfg pok eok s t recognized unrecognized fr).1 =
      (update_face_tracking fdist cfg pok2 eok2 s t recognized unrecognized fr).1 ∧
    (update_face_tracking fdist cfg pok eok s t recognized unrecognized fr).2.map alert_core =
      (update_face_tracking fdist cfg pok2 eok2 s t recognized unrecognized fr).2.map alert_core ∧
    (∀ a ∈ (update_face_tracking fdist cfg pok eok s t recognized unrecognized fr).2,
      a.log.photo_attempted = true ∧ a.log.email_attempted = true) := by
  obtain ⟨h1, h2, h3, h4⟩ := eval_fold_flag_indep fdist cfg t pok eok pok2 eok2
    (merge_detections fdist t fr s.face_tracking recognized unrecognized).tbl
    ⟨s.last_alert, s.previously_unauthorized, [], []⟩
    ⟨s.last_alert, s.previously_unauthorized, [], []⟩ rfl rfl rfl rfl
  refine ⟨?_, ?_, ?_⟩
  · simp only [update_face_tracking, eval_tracks]
    rw [h1, h2, h3]
  · simp only [update_face_tracking, eval_tracks]
    exact h4
  · intro a ha
    simp only [update_face_tracking, eval_tracks] at ha
    obtain ⟨new, halerts, _, _, hgood⟩ := eval_fold_spec fdist cfg t pok eok
      (merge_detections fdist t fr s.face_tracking recognized unrecognized).tbl
      ⟨s.last_alert, s.previously_unauthorized, [], []⟩
    rw [halerts] at ha
    simp only [List.nil_append] at ha
    obtain ⟨_, _, _, _, hlog⟩ := hgood a ha
    rw [hlog]
    exact send_unauthorized_alert_attempts pok eok

/-- The alert dispatched from `stateW` at time 105 when both the photo save
and the email transport fail. -/
def alertWF : Alert :=
  ⟨0, 105, 100, false, 0, false, [], "UNAUTHORIZED", ⟨true, false, true, false⟩⟩

theorem alertWF_mem :
    (update_face_tracking fdistD cfgD false false stateW 105 [] [] 0).2 = [alertWF] := by
  norm_num [update_face_tracking, merge_detections, eval_tracks, eval_track,
    is_repeat_offender, remove_flagged, remove_absent, prune_memory, stateW,
    alertWF, fdistD, cfgD, send_unauthorized_alert, imwrite, email_send_alert]

/-- Witness for C9: with both dispatch steps failing, the post-state equals
the all-success post-state, and the dispatched alert still attempted both
steps. -/
theorem dispatch_failure_no_rollback_witness :
    (update_face_tracking fdistD cfgD false false stateW 105 [] [] 0).1 =
      (update_face_tracking fdistD cfgD true true stateW 105 [] [] 0).1 ∧
    alertWF.log.photo_attempted = true ∧ alertWF.log.email_attempted = true := by
  have h := dispatch_failure_no_rollback fdistD cfgD false false true true stateW 105 [] [] 0
  exact ⟨h.1, h.2.2 alertWF (by rw [alertWF_mem]; exact List.mem_singleton.2 rfl)⟩

/-! ### C8: fixed reaping order -/

/-- The tracks removed because they are `ever_authorized` and older than the
10 s grace window. -/
def grace_ids (t : ℚ) (tbl : List (Nat × Track)) : List Nat :=
  (tbl.filter (fun p => p.2.ever_authorized && decide (10 < t - p.2.first_seen))).map Prod.fst

theorem eval_fold_to_remove_mono (fdist : Enc → Enc → ℚ) (cfg : Config) (t : ℚ)
    (pok eok : Bool) (l : List (Nat × Track)) :
    ∀ (acc : EvalAcc) (id : Nat), id ∈ acc.to_remove →
      id ∈ (l.foldl (eval_track fdist cfg t pok eok) acc).to_remove := by
  induction l with
  | nil => intro acc id h; exact h
  | cons p l ih =>
    intro acc id h
    rw [List.foldl_cons]
    by_cases h1 : (if is_repeat_offender fdist cfg t acc.mem p.2.encoding then
        cfg.repeat_offender_delay else cfg.unauthorized_delay) ≤ t - p.2.first_seen ∧
        p.2.ever_authorized = false
    · by_cases h2 : cfg.detection_cooldown ≤ t - acc.last_alert
      · rw [eval_track_fire fdist cfg t pok eok acc p h1 h2]
        exact ih _ id (by simp [h])
      · rw [eval_track_cooldown fdist cfg t pok eok acc p h1 h2]
        exact ih _ id h
    · by_cases h3 : p.2.ever_authorized = true ∧ 10 < t - p.2.first_seen
      · rw [eval_track_grace fdist cfg t pok eok acc p h1 h3]
        exact ih _ id (by simp [h])
      · rw [eval_track_skip fdist cfg t pok eok acc p h1 h3]
        exact ih _ id h

theorem eval_fold_remove_fwd (fdist : Enc → Enc → ℚ) (cfg : Config) (t : ℚ)
    (pok eok : Bool) (l : List (Nat × Track)) :
    ∀ (acc : EvalAcc) (id : Nat),
      id ∈ (l.foldl (eval_track fdist cfg t pok eok) acc).to_remove →
      id ∈ acc.to_remove ∨
      (∃ a ∈ (l.foldl (eval_track fdist cfg t pok eok) acc).alerts, a.id = id) ∨
      (∃ p ∈ l, p.1 = id ∧ p.2.ever_authorized = true ∧ 10 < t - p.2.first_seen) := by
  induction l with
  | nil => intro acc id h; exact Or.inl h
  | cons p l ih =>
    intro acc id h
    rw [List.foldl_cons] at h ⊢
    by_cases h1 : (if is_repeat_offender fdist cfg t acc.mem p.2.encoding then
        cfg.repeat_offender_delay else cfg.unauthorized_delay) ≤ t - p.2.first_seen ∧
        p.2.ever_authorized = false
    · by_cases h2 : cfg.detection_cooldown ≤ t - acc.last_alert
      · rw [eval_track_fire fdist cfg t pok eok acc p h1 h2] at h ⊢
        rcases ih _ id h with hin | hal | hgr
        · rcases List.mem_append.1 hin with hin | hin
          · exact Or.inl hin
          · -- id = p.1 : the fired alert for p covers it
            refine Or.inr (Or.inl ?_)
            obtain ⟨new, halerts, _, _, _⟩ := eval_fold_spec fdist cfg t pok eok l _
            refine ⟨⟨p.1, t, p.2.first_seen, p.2.ever_authorized, p.2.encoding,
              is_repeat_offender fdist cfg t acc.mem p.2.encoding, acc.mem,
              (if is_repeat_offender fdist cfg t acc.mem p.2.encoding then
                "REPEAT OFFENDER" else "UNAUTHORIZED"),
              send_unauthorized_alert pok eok⟩, ?_, ?_⟩
            · rw [halerts]
              simp
            · simpa using (List.mem_singleton.1 hin).symm
        · exact Or.inr (Or.inl hal)
        · rcases hgr with ⟨q, hq, hrest⟩
          exact Or.inr (Or.inr ⟨q, List.mem_cons_of_mem p hq, hrest⟩)
      · rw [eval_track_cooldown fdist cfg t pok eok acc p h1 h2] at h ⊢
        rcases ih _ id h with hin | hal | hgr
        · exact Or.inl hin
        · exact Or.inr (Or.inl hal)
        · rcases hgr with ⟨q, hq, hrest⟩
          exact Or.inr (Or.inr ⟨q, List.mem_cons_of_mem p hq, hrest⟩)
    · by_cases h3 : p.2.ever_authorized = true ∧ 10 < t - p.2.first_seen
      · rw [eval_track_grace fdist cfg t pok eok acc p h1 h3] at h ⊢
        rcases ih _ id h with hin | hal | hgr
        · rcases List.mem_append.1 hin with hin | hin
          · exact Or.inl hin
          · refine Or.inr (Or.inr ⟨p, List.mem_cons_self p l, ?_, h3⟩)
            simpa using (List.mem_singleton.1 hin).symm
        · exact Or.inr (Or.inl hal)
        · rcases hgr with ⟨q, hq, hrest⟩
          exact Or.inr (Or.inr ⟨q, List.mem_cons_of_mem p hq, hrest⟩)
      · rw [eval_track_skip fdist cfg t pok eok acc p h1 h3] at h ⊢
        rcases ih _ id h with hin | hal | hgr
        · exact Or.inl hin
        · exact Or.inr (Or.inl hal)
        · rcases hgr with ⟨q, hq, hrest⟩
          exact Or.inr (Or.inr ⟨q, List.mem_cons_of_mem p hq, hrest⟩)

theorem eval_fold_alert_removed (fdist : Enc → Enc → ℚ) (cfg : Config) (t : ℚ)
    (pok eok : Bool) (l : List (Nat × Track)) :
    ∀ acc : EvalAcc, (∀ a ∈ acc.alerts, a.id ∈ acc.to_remove) →
      ∀ a ∈ (l.foldl (eval_track fdist cfg t pok eok) acc).alerts,
        a.id ∈ (l.foldl (eval_track fdist cfg t pok eok) acc).to_remove := by
  induction l with
  | nil => intro acc h; exact h
  | cons p l ih =>
    intro acc hinv
    rw [List.foldl_cons]
    by_cases h1 : (if is_repeat_offender fdist cfg t acc.mem p.2.encoding then
        cfg.repeat_offender_delay else cfg.unauthorized_delay) ≤ t - p.2.first_seen ∧
        p.2.ever_authorized = false
    · by_cases h2 : cfg.detection_cooldown ≤ t - acc.last_alert
      · rw [eval_track_fire fdist cfg t pok eok acc p h1 h2]
        refine ih _ ?_
        intro a ha
        rcases List.mem_append.1 ha with ha | ha
        · exact List.mem_append.2 (Or.inl (hinv a ha))
        · rcases List.mem_singleton.1 ha with rfl
          simp
      · rw [eval_track_cooldown fdist cfg t pok eok acc p h1 h2]
        exact ih _ hinv
    · by_cases h3 : p.2.ever_authorized = true ∧ 10 < t - p.2.first_seen
      · rw [eval_track_grace fdist cfg t pok eok acc p h1 h3]
        refine ih _ ?_
        intro a ha
        exact List.mem_append.2 (Or.inl (hinv a ha))
      · rw [eval_track_skip fdist cfg t pok eok acc p h1 h3]
        exact ih _ hinv

theorem eval_fold_grace_removed (fdist : Enc → Enc → ℚ) (cfg : Config) (t : ℚ)
    (pok eok : Bool) (l : List (Nat × Track)) :
    ∀ (acc : EvalAcc) (p : Nat × Track), p ∈ l → p.2.ever_authorized = true →
      10 < t - p.2.first_seen →
      p.1 ∈ (l.foldl (eval_track fdist cfg t pok eok) acc).to_remove := by
  induction l with
  | nil => intro acc p h; cases h
  | cons q l ih =>
    intro acc p hp hauth hold
    rw [List.foldl_cons]
    rcases List.mem_cons.1 hp with rfl | hp
    · have h1 : ¬ ((if is_repeat_offender fdist cfg t acc.mem p.2.encoding then
          cfg.repeat_offender_delay else cfg.unauthorized_delay) ≤ t - p.2.first_seen ∧
          p.2.ever_authorized = false) := by
        intro h
        rw [hauth] at h
        cases h.2
      rw [eval_track_grace fdist cfg t pok eok acc p h1 ⟨hauth, hold⟩]
      exact eval_fold_to_remove_mono fdist cfg t pok eok l _ p.1 (by simp)
    · exact ih _ p hp hauth hold

/-! ### Key uniqueness of the track table -/

theorem keys_map_keyfix {l : List (Nat × Track)} {g : Nat × Track → Nat × Track}
    (hg : ∀ p, (g p).1 = p.1) : (l.map g).map Prod.fst = l.map Prod.fst := by
  rw [List.map_map]
  exact List.map_congr_left (fun p _ => hg p)

theorem keys_dictUpd_nodup {l : List (Nat × Track)} {k : Nat} {v : Track}
    (h : (l.map Prod.fst).Nodup) : ((dictUpd l k v).map Prod.fst).Nodup := by
  unfold dictUpd
  by_cases hany : l.any (fun p => p.1 = k)
  · rw [if_pos hany]
    have : ((l.map fun p => if p.1 = k then (k, v) else p).map Prod.fst) = l.map Prod.fst := by
      refine keys_map_keyfix ?_
      intro p
      by_cases hp : p.1 = k
      · simp [hp]
      · simp [hp]
    rw [this]
    exact h
  · rw [if_neg hany]
    rw [List.map_append]
    simp only [List.map_cons, List.map_nil]
    rw [List.nodup_append]
    refine ⟨h, List.nodup_singleton k, ?_⟩
    intro x hx hk
    rcases List.mem_singleton.1 hk with rfl
    rcases List.mem_map.1 hx with ⟨p, hp, rfl⟩
    rw [List.any_eq_true] at hany
    exact hany ⟨p, hp, by simp⟩

theorem keys_update_recognized_nodup (fdist : Enc → Enc → ℚ) (t : ℚ) (fr : Frame)
    (acc : MergeAcc) (det : String × Loc × Enc)
    (h : (acc.tbl.map Prod.fst).Nodup) :
    ((update_recognized fdist t fr acc det).tbl.map Prod.fst).Nodup := by
  cases hfind : find_matching_face_id fdist det.2.2 t acc.tbl with
  | none =>
    simp only [update_recognized, hfind]
    exact keys_dictUpd_nodup h
  | some fid =>
    simp only [update_recognized, hfind]
    have hfix : ((acc.tbl.map fun p =>
        if p.1 = fid then
          (fid, { p.2 with
                  ever_authorized := true,
                  location := det.2.1,
                  frame := fr,
                  encoding := det.2.2 })
        else p).map Prod.fst) = acc.tbl.map Prod.fst := by
      refine keys_map_keyfix ?_
      intro p
      by_cases hp : p.1 = fid
      · simp [hp]
      · simp [hp]
    rw [hfix]
    exact h

theorem keys_update_unrecognized_nodup (fdist : Enc → Enc → ℚ) (t : ℚ) (fr : Frame)
    (acc : MergeAcc) (det : Loc × Enc)
    (h : (acc.tbl.map Prod.fst).Nodup) :
    ((update_unrecognized fdist t fr acc det).tbl.map Prod.fst).Nodup := by
  cases hfind : find_matching_face_id fdist det.2 t acc.tbl with
  | none =>
    simp only [update_unrecognized, hfind]
    exact keys_dictUpd_nodup h
  | some fid =>
    simp only [update_unrecognized, hfind]
    have hfix : ((acc.tbl.map fun p =>
        if p.1 = fid then
          (fid, { p.2 with
                  location := det.1,
                  frame := fr,
                  encoding := det.2 })
        else p).map Prod.fst) = acc.tbl.map Prod.fst := by
      refine keys_map_keyfix ?_
      intro p
      by_cases hp : p.1 = fid
      · simp [hp]
      · simp [hp]
    rw [hfix]
    exact h

theorem keys_merge_nodup (fdist : Enc → Enc → ℚ) (t : ℚ) (fr : Frame)
    (tbl : List (Nat × Track)) (recognized : List (String × Loc × Enc))
    (unrecognized : List (Loc × Enc)) (h : (tbl.map Prod.fst).Nodup) :
    (((merge_detections fdist t fr tbl recognized unrecognized).tbl).map Prod.fst).Nodup := by
  unfold merge_detections
  have hrec : ∀ (rs : List (String × Loc × Enc)) (acc : MergeAcc),
      (acc.tbl.map Prod.fst).Nodup →
      ((rs.foldl (update_recognized fdist t fr) acc).tbl.map Prod.fst).Nodup := by
    intro rs
    induction rs with
    | nil => intro acc hacc; exact hacc
    | cons d ds ih =>
      intro acc hacc
      rw [List.foldl_cons]
      exact ih _ (keys_update_recognized_nodup fdist t fr acc d hacc)
  have hunrec : ∀ (us : List (Loc × Enc)) (acc : MergeAcc),
      (acc.tbl.map Prod.fst).Nodup →
      ((us.foldl (update_unrecognized fdist t fr) acc).tbl.map Prod.fst).Nodup := by
    intro us
    induction us with
    | nil => intro acc hacc; exact hacc
    | cons d ds ih =>
      intro acc hacc
      rw [List.foldl_cons]
      exact ih _ (keys_update_unrecognized_nodup fdist t fr acc d hacc)
  exact hunrec unrecognized _ (hrec recognized ⟨tbl, []⟩ h)

theorem nodup_key_unique {l : List (Nat × Track)} (h : (l.map Prod.fst).Nodup)
    {id : Nat} {a b : Track} (ha : (id, a) ∈ l) (hb : (id, b) ∈ l) : a = b := by
  have := List.inj_on_of_nodup_map h ha hb rfl
  exact congrArg Prod.snd this

theorem contains_eq (l : List Nat) (a : Nat) : l.contains a = decide (a ∈ l) :=
  List.elem_eq_mem a l

/-- C8. Track reaping is applied after the alert loop in the fixed order of
the source: the resulting table equals the merged table with (1) the tracks
that fired an alert this cycle removed, then (2) the `ever_authorized`
tracks older than the 10 s grace window removed, then (3) the
absence-reaping filter applied to what remains; and every track that fired
an alert this cycle — its dispatch already performed by the alert loop — is
absent from the final table, so a track qualifying both for alerting and
for absence-removal alerts before being reaped. -/
theorem reaping_fixed_order (fdist : Enc → Enc → ℚ) (cfg : Config)
    (pok eok : Bool) (s : SysState) (t : ℚ)
    (recognized : List (String × Loc × Enc)) (unrecognized : List (Loc × Enc))
    (fr : Frame) (hnd : (s.face_tracking.map Prod.fst).Nodup) :
    (update_face_tracking fdist cfg pok eok s t recognized unrecognized fr).1.face_tracking =
      remove_absent t
        (merge_detections fdist t fr s.face_tracking recognized unrecognized).current_face_ids
        (remove_flagged
          (remove_flagged
            (merge_detections fdist t fr s.face_tracking recognized unrecognized).tbl
            ((eval_tracks fdist cfg t pok eok s.last_alert s.previously_unauthorized
              (merge_detections fdist t fr s.face_tracking recognized
                unrecognized).tbl).alerts.map Alert.id))
          (grace_ids t
            (merge_detections fdist t fr s.face_tracking recognized unrecognized).tbl)) ∧
    ∀ a ∈ (update_face_tracking fdist cfg pok eok s t recognized unrecognized fr).2,
      dictFind
        (update_face_tracking fdist cfg pok eok s t recognized unrecognized fr).1.face_tracking
        a.id = none := by
  have hndm := keys_merge_nodup fdist t fr s.face_tracking recognized unrecognized hnd
  have hiff : ∀ p ∈ (merge_detections fdist t fr s.face_tracking recognized unrecognized).tbl,
      (p.1 ∈ (eval_tracks fdist cfg t pok eok s.last_alert s.previously_unauthorized
          (merge_detections fdist t fr s.face_tracking recognized unrecognized).tbl).to_remove ↔
        p.1 ∈ ((eval_tracks fdist cfg t pok eok s.last_alert s.previously_unauthorized
          (merge_detections fdist t fr s.face_tracking recognized
            unrecognized).tbl).alerts.map Alert.id) ∨
        p.1 ∈ grace_ids t
          (merge_detections fdist t fr s.face_tracking recognized unrecognized).tbl) := by
    intro p hp
    constructor
    · intro hin
      simp only [eval_tracks] at hin
      rcases eval_fold_remove_fwd fdist cfg t pok eok _ _ _ hin with h | h | h
      · cases h
      · rcases h with ⟨a, ha, haid⟩
        refine Or.inl (List.mem_map.2 ⟨a, ?_, haid⟩)
        simpa [eval_tracks] using ha
      · rcases h with ⟨q, hq, hqid, hauth, hold⟩
        have hqp : q = p := List.inj_on_of_nodup_map hndm hq hp hqid
        subst hqp
        refine Or.inr (List.mem_map.2 ⟨q, ?_, rfl⟩)
        rw [List.mem_filter]
        exact ⟨hq, by simp [hauth, hold]⟩
    · intro hin
      rcases hin with hin | hin
      · rcases List.mem_map.1 hin with ⟨a, ha, haid⟩
        rw [← haid]
        simp only [eval_tracks] at ha ⊢
        exact eval_fold_alert_removed fdist cfg t pok eok _ _ (by simp) a ha
      · rcases List.mem_map.1 hin with ⟨q, hq, hqid⟩
        rw [List.mem_filter] at hq
        have hauth : q.2.ever_authorized = true := by
          have := hq.2
          rw [Bool.and_eq_true] at this
          exact this.1
        have hold : 10 < t - q.2.first_seen := by
          have := hq.2
          rw [Bool.and_eq_true, decide_eq_true_eq] at this
          exact this.2
        rw [← hqid]
        simp only [eval_tracks]
        exact eval_fold_grace_removed fdist cfg t pok eok _ _ q hq.1 hauth hold
  have hflag : remove_flagged
      (merge_detections fdist t fr s.face_tracking recognized unrecognized).tbl
      (eval_tracks fdist cfg t pok eok s.last_alert s.previously_unauthorized
        (merge_detections fdist t fr s.face_tracking recognized unrecognized).tbl).to_remove =
      remove_flagged
        (remove_flagged
          (merge_detections fdist t fr s.face_tracking recognized unrecognized).tbl
          ((eval_tracks fdist cfg t pok eok s.last_alert s.previously_unauthorized
            (merge_detections fdist t fr s.face_tracking recognized
              unrecognized).tbl).alerts.map Alert.id))
        (grace_ids t
          (merge_detections fdist t fr s.face_tracking recognized unrecognized).tbl) := by
    unfold remove_flagged
    rw [List.filter_filter]
    refine (List.filter_congr ?_)
    intro p hp
    have h := hiff p hp
    rw [contains_eq, contains_eq, contains_eq]
    by_cases hmem : p.1 ∈ (eval_tracks fdist cfg t pok eok s.last_alert
        s.previously_unauthorized
        (merge_detections fdist t fr s.face_tracking recognized unrecognized).tbl).to_remove
    · rcases h.1 hmem with hc | hc
      · simp [hmem, hc]
      · simp [hmem, hc]
    · have hno := hmem
      rw [h] at hno
      push_neg at hno
      simp [hmem, hno.1, hno.2]
  constructor
  · simp only [update_face_tracking]
    rw [hflag]
  · intro a ha
    simp only [update_face_tracking, eval_tracks] at ha
    have haid : a.id ∈ (eval_tracks fdist cfg t pok eok s.last_alert
        s.previously_unauthorized
        (merge_detections fdist t fr s.face_tracking recognized unrecognized).tbl).to_remove := by
      simp only [eval_tracks]
      exact eval_fold_alert_removed fdist cfg t pok eok _ _ (by simp) a ha
    refine dictFind_eq_none ?_
    intro p hp
    simp only [update_face_tracking] at hp
    unfold remove_absent at hp
    rw [List.mem_filter] at hp
    unfold remove_flagged at hp
    rw [List.mem_filter] at hp
    intro hcontra
    have hnotin := hp.1.2
    rw [contains_eq] at hnotin
    rw [hcontra] at hnotin
    simp only [eval_tracks] at hnotin haid
    rw [Bool.not_eq_eq_eq_not] at hnotin
    simp only [Bool.not_true, decide_eq_false_iff_not] at hnotin
    exact hnotin haid

/-! ### C4: the Track Matcher candidate window and best-match rule -/

theorem fm_step_skip (fdist : Enc → Enc → ℚ) (e : Enc) (t : ℚ)
    (acc : Option (Nat × ℚ)) (p : Nat × Track) (hc : ¬ t - p.2.first_seen < 2) :
    fm_step fdist e t acc p = acc := by
  unfold fm_step
  rw [if_neg hc]

theorem fm_step_none_pos (fdist : Enc → Enc → ℚ) (e : Enc) (t : ℚ)
    (p : Nat × Track) (hc : t - p.2.first_seen < 2)
    (hd : fdist p.2.encoding e < 1/2) :
    fm_step fdist e t none p = some (p.1, fdist p.2.encoding e) := by
  unfold fm_step
  rw [if_pos hc]
  show (if fdist p.2.encoding e < 1/2 then some (p.1, fdist p.2.encoding e) else none) = _
  rw [if_pos hd]

theorem fm_step_none_neg (fdist : Enc → Enc → ℚ) (e : Enc) (t : ℚ)
    (p : Nat × Track) (hc : t - p.2.first_seen < 2)
    (hd : ¬ fdist p.2.encoding e < 1/2) :
    fm_step fdist e t none p = none := by
  unfold fm_step
  rw [if_pos hc]
  show (if fdist p.2.encoding e < 1/2 then some (p.1, fdist p.2.encoding e) else none) = _
  rw [if_neg hd]

theorem fm_step_some_pos (fdist : Enc → Enc → ℚ) (e : Enc) (t : ℚ)
    (p : Nat × Track) (bid : Nat) (bd : ℚ) (hc : t - p.2.first_seen < 2)
    (hd : fdist p.2.encoding e < 1/2 ∧ fdist p.2.encoding e < bd) :
    fm_step fdist e t (some (bid, bd)) p = some (p.1, fdist p.2.encoding e) := by
  unfold fm_step
  rw [if_pos hc]
  show (if fdist p.2.encoding e < 1/2 ∧ fdist p.2.encoding e < bd then
    some (p.1, fdist p.2.encoding e) else some (bid, bd)) = _
  rw [if_pos hd]

theorem fm_step_some_neg (fdist : Enc → Enc → ℚ) (e : Enc) (t : ℚ)
    (p : Nat × Track) (bid : Nat) (bd : ℚ) (hc : t - p.2.first_seen < 2)
    (hd : ¬ (fdist p.2.encoding e < 1/2 ∧ fdist p.2.encoding e < bd)) :
    fm_step fdist e t (some (bid, bd)) p = some (bid, bd) := by
  unfold fm_step
  rw [if_pos hc]
  show (if fdist p.2.encoding e < 1/2 ∧ fdist p.2.encoding e < bd then
    some (p.1, fdist p.2.encoding e) else some (bid, bd)) = _
  rw [if_neg hd]

theorem fm_step_some (fdist : Enc → Enc → ℚ) (e : Enc) (t : ℚ)
    (b : Nat × ℚ) (p : Nat × Track) :
    ∃ c : Nat × ℚ, fm_step fdist e t (some b) p = some c ∧ c.2 ≤ b.2 := by
  obtain ⟨bid, bd⟩ := b
  by_cases hc : t - p.2.first_seen < 2
  · by_cases hd : fdist p.2.encoding e < 1/2 ∧ fdist p.2.encoding e < bd
    · exact ⟨(p.1, fdist p.2.encoding e),
        fm_step_some_pos fdist e t p bid bd hc hd, le_of_lt hd.2⟩
    · exact ⟨(bid, bd), fm_step_some_neg fdist e t p bid bd hc hd, le_refl _⟩
  · exact ⟨(bid, bd), fm_step_skip fdist e t _ p hc, le_refl _⟩

theorem fm_fold_some (fdist : Enc → Enc → ℚ) (e : Enc) (t : ℚ)
    (l : List (Nat × Track)) :
    ∀ b : Nat × ℚ, ∃ c : Nat × ℚ,
      l.foldl (fm_step fdist e t) (some b) = some c ∧ c.2 ≤ b.2 := by
  induction l with
  | nil => intro b; exact ⟨b, rfl, le_refl _⟩
  | cons p l ih =>
    intro b
    rw [List.foldl_cons]
    obtain ⟨c1, hc1, hle1⟩ := fm_step_some fdist e t b p
    rw [hc1]
    obtain ⟨c, hc, hle⟩ := ih c1
    exact ⟨c, hc, hle.trans hle1⟩

theorem fm_fold_none_all (fdist : Enc → Enc → ℚ) (e : Enc) (t : ℚ)
    (l : List (Nat × Track)) :
    l.foldl (fm_step fdist e t) none = none →
    ∀ q ∈ l, t - q.2.first_seen < 2 → 1/2 ≤ fdist q.2.encoding e := by
  induction l with
  | nil => intro _ q hq; cases hq
  | cons p l ih =>
    intro h q hq hcand
    rw [List.foldl_cons] at h
    by_cases hc : t - p.2.first_seen < 2
    · by_cases hd : fdist p.2.encoding e < 1/2
      · exfalso
        rw [fm_step_none_pos fdist e t p hc hd] at h
        obtain ⟨c, hc2, _⟩ := fm_fold_some fdist e t l (p.1, fdist p.2.encoding e)
        rw [hc2] at h
        cases h
      · rw [fm_step_none_neg fdist e t p hc hd] at h
        rcases List.mem_cons.1 hq with rfl | hq
        · exact not_lt.1 hd
        · exact ih h q hq hcand
    · rw [fm_step_skip fdist e t none p hc] at h
      rcases List.mem_cons.1 hq with rfl | hq
      · exact absurd hcand hc
      · exact ih h q hq hcand

theorem fm_fold_best (fdist : Enc → Enc → ℚ) (e : Enc) (t : ℚ)
    (l : List (Nat × Track)) :
    ∀ (acc : Option (Nat × ℚ)) (q : Nat × Track), q ∈ l → t - q.2.first_seen < 2 →
      fdist q.2.encoding e < 1/2 →
      ∃ c : Nat × ℚ, l.foldl (fm_step fdist e t) acc = some c ∧
        c.2 ≤ fdist q.2.encoding e := by
  induction l with
  | nil => intro acc q hq; cases hq
  | cons p l ih =>
    intro acc q hq hcand hd
    rw [List.foldl_cons]
    rcases List.mem_cons.1 hq with rfl | hq
    · have hstep : ∃ c1 : Nat × ℚ, fm_step fdist e t acc q = some c1 ∧
          c1.2 ≤ fdist q.2.encoding e := by
        cases acc with
        | none =>
          exact ⟨(q.1, fdist q.2.encoding e),
            fm_step_none_pos fdist e t q hcand hd, le_refl _⟩
        | some b =>
          obtain ⟨bid, bd⟩ := b
          by_cases hlt : fdist q.2.encoding e < bd
          · exact ⟨(q.1, fdist q.2.encoding e),
              fm_step_some_pos fdist e t q bid bd hcand ⟨hd, hlt⟩, le_refl _⟩
          · exact ⟨(bid, bd),
              fm_step_some_neg fdist e t q bid bd hcand
                (by intro hcontra; exact hlt hcontra.2),
              not_lt.1 hlt⟩
      obtain ⟨c1, hc1, hle1⟩ := hstep
      rw [hc1]
      obtain ⟨c, hc, hle⟩ := fm_fold_some fdist e t l c1
      exact ⟨c, hc, hle.trans hle1⟩
    · exact ih _ q hq hcand hd

theorem fm_fold_provenance (fdist : Enc → Enc → ℚ) (e : Enc) (t : ℚ)
    (l : List (Nat × Track)) :
    ∀ (acc : Option (Nat × ℚ)) (id : Nat) (d : ℚ),
      l.foldl (fm_step fdist e t) acc = some (id, d) →
      acc = some (id, d) ∨
      ∃ td, (id, td) ∈ l ∧ t - td.first_seen < 2 ∧ d = fdist td.encoding e ∧ d < 1/2 := by
  induction l with
  | nil => intro acc id d h; exact Or.inl h
  | cons p l ih =>
    intro acc id d h
    rw [List.foldl_cons] at h
    rcases ih _ id d h with hstep | ⟨td, htd, hcand, hd, hlt⟩
    · by_cases hc : t - p.2.first_seen < 2
      · cases acc with
        | none =>
          by_cases hd : fdist p.2.encoding e < 1/2
          · rw [fm_step_none_pos fdist e t p hc hd] at hstep
            have hpair : (p.1, fdist p.2.encoding e) = (id, d) :=
              Option.some_inj.1 hstep
            have h1 : p.1 = id := congrArg Prod.fst hpair
            have h2 : fdist p.2.encoding e = d := congrArg Prod.snd hpair
            subst h1
            subst h2
            exact Or.inr ⟨p.2, List.mem_cons_self p l, hc, rfl, hd⟩
          · rw [fm_step_none_neg fdist e t p hc hd] at hstep
            cases hstep
        | some b =>
          obtain ⟨bid, bd⟩ := b
          by_cases hd : fdist p.2.encoding e < 1/2 ∧ fdist p.2.encoding e < bd
          · rw [fm_step_some_pos fdist e t p bid bd hc hd] at hstep
            have hpair : (p.1, fdist p.2.encoding e) = (id, d) :=
              Option.some_inj.1 hstep
            have h1 : p.1 = id := congrArg Prod.fst hpair
            have h2 : fdist p.2.encoding e = d := congrArg Prod.snd hpair
            subst h1
            subst h2
            exact Or.inr ⟨p.2, List.mem_cons_self p l, hc, rfl, hd.1⟩
          · rw [fm_step_some_neg fdist e t p bid bd hc hd] at hstep
            exact Or.inl hstep
      · rw [fm_step_skip fdist e t acc p hc] at hstep
        exact Or.inl hstep
    · exact Or.inr ⟨td, List.mem_cons_of_mem p htd, hcand, hd, hlt⟩

/-- Counterexample to C4 as stated: after a track is created at time 0 and
updated by a detection at time 1 (its stored location becomes the time-1
detection's location 11), a detection at time 5/2 with an identical
embedding (distance 0 < 0.5) was observed 3/2 < 2 seconds after the track's
last observation, yet `find_matching_face_id` returns no match — the
candidate window is measured from `first_seen` (creation), not from the
last observation. -/
theorem matcher_window_counterexample :
    (run_cycles fdistD cfgD true true initState
      [⟨0, [], [(10, 0)], 0⟩, ⟨1, [], [(11, 0)], 0⟩]).1.face_tracking =
      [(0, ⟨0, false, 11, 0, none, 0⟩)] ∧
    fdistD 0 0 < 1/2 ∧ ((5/2 : ℚ) - 1 < 2) ∧
    find_matching_face_id fdistD 0 (5/2) [(0, ⟨0, false, 11, 0, none, 0⟩)] = none := by
  refine ⟨?_, by norm_num [fdistD], by norm_num, ?_⟩ <;>
  norm_num [run_cycles, update_face_tracking, merge_detections, update_unrecognized,
    update_recognized, find_matching_face_id, fm_step, dictUpd, eval_tracks, eval_track,
    is_repeat_offender, remove_flagged, remove_absent, prune_memory, initState,
    fdistD, cfgD, send_unauthorized_alert, imwrite, email_send_alert]

/-- C4 (amended). The Track Matcher considers as merge candidates exactly
the tracks whose `first_seen` (creation time) lies within the last 2
seconds — not the tracks last observed within 2 seconds; among candidates
whose embedding distance to the detection is below the 0.5 threshold it
returns one of minimal distance, and it returns no match when no candidate
is below the threshold. -/
theorem find_matching_face_id_spec (fdist : Enc → Enc → ℚ) (e : Enc) (t : ℚ)
    (tbl : List (Nat × Track)) :
    (∀ fid, find_matching_face_id fdist e t tbl = some fid →
      ∃ td, (fid, td) ∈ tbl ∧ t - td.first_seen < 2 ∧ fdist td.encoding e < 1/2 ∧
        ∀ q ∈ tbl, t - q.2.first_seen < 2 →
          fdist td.encoding e ≤ fdist q.2.encoding e) ∧
    (find_matching_face_id fdist e t tbl = none →
      ∀ q ∈ tbl, t - q.2.first_seen < 2 → 1/2 ≤ fdist q.2.encoding e) := by
  constructor
  · intro fid hfid
    unfold find_matching_face_id at hfid
    obtain ⟨c, hfold, hfst⟩ := Option.map_eq_some'.1 hfid
    obtain ⟨id, d⟩ := c
    rcases fm_fold_provenance fdist e t tbl none id d hfold with hacc | h
    · cases hacc
    obtain ⟨td, htd, hcand, hd, hlt⟩ := h
    simp only at hfst
    subst hfst
    refine ⟨td, htd, hcand, hd ▸ hlt, ?_⟩
    intro q hq hqcand
    by_cases hqd : fdist q.2.encoding e < 1/2
    · obtain ⟨c, hc, hcle⟩ := fm_fold_best fdist e t tbl none q hq hqcand hqd
      rw [hfold] at hc
      have hcd : c = (id, d) := (Option.some_inj.1 hc).symm
      rw [hcd] at hcle
      rw [← hd]
      exact hcle
    · rw [← hd]
      exact le_of_lt (lt_of_lt_of_le hlt (not_lt.1 hqd))
  · intro hnone q hq hcand
    unfold find_matching_face_id at hnone
    exact fm_fold_none_all fdist e t tbl (Option.map_eq_none'.1 hnone) q hq hcand

/-- The two-track table of the C4 witness: track 0 created 2 seconds ago
(outside the candidate window), track 1 created 1 second ago. -/
def tblW4 : List (Nat × Track) :=
  [(0, ⟨0, false, 10, 0, none, 0⟩), (1, ⟨1, false, 11, 0, none, 1⟩)]

/-- Witness for C4 (amended): at t = 2 a detection with embedding 1 matches
track 1, and the returned track is a candidate of minimal distance. -/
theorem find_matching_face_id_spec_witness :
    find_matching_face_id fdistD 1 2 tblW4 = some 1 ∧
    ∃ td, (1, td) ∈ tblW4 ∧ (2 : ℚ) - td.first_seen < 2 ∧ fdistD td.encoding 1 < 1/2 ∧
      ∀ q ∈ tblW4, (2 : ℚ) - q.2.first_seen < 2 →
        fdistD td.encoding 1 ≤ fdistD q.2.encoding 1 := by
  have hfind : find_matching_face_id fdistD 1 2 tblW4 = some 1 := by
    norm_num [find_matching_face_id, fm_step, tblW4, fdistD]
  exact ⟨hfind, (find_matching_face_id_spec fdistD 1 2 tblW4).1 1 hfind⟩

/-! ### C3: id uniqueness and stability -/

/-- Counterexample to C3 as stated: after the trace below, the track table
entering the cycle at time 4 holds the live track `(1, ⟨3, false, 12, _,
none, 1⟩)` — created at time 3, hence still inside both the 2-second
matcher window and the 2-second absence window at time 4 — yet the cycle at
time 4 creates a new track for an unmatched detection with
`face_id = len(table) = 1` and overwrites it: id 1 now denotes a different
track (different `first_seen` and embedding) while the original was still
live. -/
theorem track_id_reuse_counterexample :
    (run_cycles fdistD cfgD true true initState
      [⟨0, [], [(10, 0)], 0⟩, ⟨3, [], [(12, 1)], 0⟩]).1.face_tracking =
      [(1, ⟨3, false, 12, 0, none, 1⟩)] ∧
    ((4 : ℚ) - 3 < 2) ∧
    (run_cycles fdistD cfgD true true initState
      [⟨0, [], [(10, 0)], 0⟩, ⟨3, [], [(12, 1)], 0⟩, ⟨4, [], [(14, 2)], 0⟩]).1.face_tracking =
      [(1, ⟨4, false, 14, 0, none, 2⟩)] := by
  refine ⟨?_, by norm_num, ?_⟩ <;>
  norm_num [run_cycles, update_face_tracking, merge_detections, update_unrecognized,
    update_recognized, find_matching_face_id, fm_step, dictUpd, eval_tracks, eval_track,
    is_repeat_offender, remove_flagged, remove_absent, prune_memory, initState,
    fdistD, cfgD, send_unauthorized_alert, imwrite, email_send_alert]

/-- C3 (amended). At every instant the ids present in the Track Table are
unique (the table is a map, and `update_face_tracking` preserves key
uniqueness); id stability, however, fails: because a new track's id is the
current table size, a removal that leaves a hole lets a later creation
reuse — and overwrite — the id of a track that is still live. -/
theorem track_ids_unique (fdist : Enc → Enc → ℚ) (cfg : Config)
    (pok eok : Bool) (s : SysState) (t : ℚ)
    (recognized : List (String × Loc × Enc)) (unrecognized : List (Loc × Enc))
    (fr : Frame) (hnd : (s.face_tracking.map Prod.fst).Nodup) :
    ((update_face_tracking fdist cfg pok eok s t recognized unrecognized
      fr).1.face_tracking.map Prod.fst).Nodup := by
  simp only [update_face_tracking]
  have h1 := keys_merge_nodup fdist t fr s.face_tracking recognized unrecognized hnd
  unfold remove_absent remove_flagged
  refine List.Sublist.nodup ?_ h1
  exact ((List.filter_sublist _).map Prod.fst).trans ((List.filter_sublist _).map Prod.fst)

/-- Witness for C3 (amended), at the concrete state `stateW`. -/
theorem track_ids_unique_witness :
    (stateW.face_tracking.map Prod.fst).Nodup ∧
    ((update_face_tracking fdistD cfgD true true stateW 105 [] []
      0).1.face_tracking.map Prod.fst).Nodup := by
  have hnd : (stateW.face_tracking.map Prod.fst).Nodup := by
    norm_num [stateW]
  exact ⟨hnd, track_ids_unique fdistD cfgD true true stateW 105 [] [] 0 hnd⟩

/-! ### C5: monotonicity of the authorization flag -/

/-- Counterexample to C5 as stated: id 1 holds an authorized track
(`ever_authorized = true`, recognized as "bob" at time 3); at time 4 an
unrecognized detection that matches no track is created with
`face_id = len(table) = 1` and overwrites the live authorized entry, so the
flag stored at track id 1 falls from `true` back to `false` under a Track
Table update. -/
theorem ever_authorized_reset_counterexample :
    (run_cycles fdistD cfgD true true initState
      [⟨0, [], [(10, 0)], 0⟩, ⟨3, [("bob", 12, 1)], [], 0⟩]).1.face_tracking =
      [(1, ⟨3, true, 12, 0, some "bob", 1⟩)] ∧
    (run_cycles fdistD cfgD true true initState
      [⟨0, [], [(10, 0)], 0⟩, ⟨3, [("bob", 12, 1)], [], 0⟩,
       ⟨4, [], [(14, 2)], 0⟩]).1.face_tracking =
      [(1, ⟨4, false, 14, 0, none, 2⟩)] := by
  constructor <;>
  norm_num [run_cycles, update_face_tracking, merge_detections, update_unrecognized,
    update_recognized, find_matching_face_id, fm_step, dictUpd, eval_tracks, eval_track,
    is_repeat_offender, remove_flagged, remove_absent, prune_memory, initState,
    fdistD, cfgD, send_unauthorized_alert, imwrite, email_send_alert]

/-- C5 (amended). When an unrecognized detection is *merged* into an
existing track (the matcher returns a track id), no entry's
`ever_authorized` flag is lowered: every track that was `true` stays `true`
and keeps its `first_seen`. The flag at a given id can only fall from
`true` to `false` through a new-track creation that reuses that id. -/
theorem ever_authorized_monotone_on_merge (fdist : Enc → Enc → ℚ) (t : ℚ)
    (fr : Frame) (acc : MergeAcc) (det : Loc × Enc) (fid : Nat)
    (hmatch : find_matching_face_id fdist det.2 t acc.tbl = some fid) :
    ∀ id td, dictFind acc.tbl id = some td → td.ever_authorized = true →
      ∃ td2, dictFind (update_unrecognized fdist t fr acc det).tbl id = some td2 ∧
        td2.ever_authorized = true ∧ td2.first_seen = td.first_seen := by
  intro id td hfind hauth
  simp only [update_unrecognized, hmatch]
  rw [dictFind_map_keyfix (fun p => by by_cases hp : p.1 = fid <;> simp [hp]) id]
  rw [hfind]
  by_cases hid : id = fid
  · subst hid
    simp only [Option.map_some', if_pos rfl]
    exact ⟨_, rfl, hauth, rfl⟩
  · have : ¬ ((id, td).1 = fid) := hid
    simp only [Option.map_some', if_neg this]
    exact ⟨td, rfl, hauth, rfl⟩

/-- The one-track authorized table of the C5 witness. -/
def accW5 : MergeAcc := ⟨[(0, ⟨0, true, 10, 0, some "amy", 0⟩)], []⟩

/-- Witness for C5 (amended): a matching unrecognized detection at t = 1
merges into the authorized track 0 and leaves its flag `true`. -/
theorem ever_authorized_monotone_on_merge_witness :
    find_matching_face_id fdistD 0 1 accW5.tbl = some 0 ∧
    ∃ td2, dictFind (update_unrecognized fdistD 1 0 accW5 (11, 0)).tbl 0 = some td2 ∧
      td2.ever_authorized = true ∧ td2.first_seen = 0 := by
  have hmatch : find_matching_face_id fdistD 0 1 accW5.tbl = some 0 := by
    norm_num [find_matching_face_id, fm_step, accW5, fdistD]
  have hfind : dictFind accW5.tbl 0 = some ⟨0, true, 10, 0, some "amy", 0⟩ := by
    norm_num [dictFind, accW5]
  exact ⟨hmatch, ever_authorized_monotone_on_merge fdistD 1 0 accW5 (11, 0) 0 hmatch
    0 ⟨0, true, 10, 0, some "amy", 0⟩ hfind rfl⟩

/-! ### C7: absence reaping -/

/-- Counterexample to C7 as stated: a track created at time 0 is updated by
a detection at time 3/2 (its stored location becomes 11); at the cycle at
time 5/2 — only 1 second after its last update, within the claimed 2-second
occlusion allowance — the track is nevertheless removed, and no alert was
dispatched anywhere in the trace (so the removal is absence reaping, keyed
on `first_seen`, not on the last update). -/
theorem absence_reaping_counterexample :
    (run_cycles fdistD cfgD true true initState
      [⟨0, [], [(10, 0)], 0⟩, ⟨3/2, [], [(11, 0)], 0⟩]).1.face_tracking =
      [(0, ⟨0, false, 11, 0, none, 0⟩)] ∧
    ((5/2 : ℚ) - 3/2 < 2) ∧
    (run_cycles fdistD cfgD true true initState
      [⟨0, [], [(10, 0)], 0⟩, ⟨3/2, [], [(11, 0)], 0⟩, ⟨5/2, [], [], 0⟩]) =
      (⟨[], 0, []⟩, []) := by
  refine ⟨?_, by norm_num, ?_⟩ <;>
  norm_num [run_cycles, update_face_tracking, merge_detections, update_unrecognized,
    update_recognized, find_matching_face_id, fm_step, dictUpd, eval_tracks, eval_track,
    is_repeat_offender, remove_flagged, remove_absent, prune_memory, initState,
    fdistD, cfgD, send_unauthorized_alert, imwrite, email_send_alert]

/-- C7 (amended). Absence reaping is keyed on track creation time: a track
untouched by any detection of the current cycle whose `first_seen` is more
than 2 seconds old is removed from the table (this covers every track not
updated for more than 2 seconds, since merging requires `first_seen` within
2 seconds); conversely a track that survived the alert/grace deletions and
whose `first_seen` is within the last 2 seconds is not removed by absence
reaping — the occlusion allowance is measured from creation, not from the
last update. -/
theorem absence_reaping_by_first_seen (fdist : Enc → Enc → ℚ) (cfg : Config)
    (pok eok : Bool) (s : SysState) (t : ℚ)
    (recognized : List (String × Loc × Enc)) (unrecognized : List (Loc × Enc))
    (fr : Frame) (hnd : (s.face_tracking.map Prod.fst).Nodup) :
    (∀ id td,
      dictFind (merge_detections fdist t fr s.face_tracking recognized
        unrecognized).tbl id = some td →
      id ∉ (merge_detections fdist t fr s.face_tracking recognized
        unrecognized).current_face_ids →
      2 < t - td.first_seen →
      dictFind (update_face_tracking fdist cfg pok eok s t recognized unrecognized
        fr).1.face_tracking id = none) ∧
    (∀ id td,
      dictFind (remove_flagged
        (merge_detections fdist t fr s.face_tracking recognized unrecognized).tbl
        (eval_tracks fdist cfg t pok eok s.last_alert s.previously_unauthorized
          (merge_detections fdist t fr s.face_tracking recognized
            unrecognized).tbl).to_remove) id = some td →
      t - td.first_seen ≤ 2 →
      dictFind (update_face_tracking fdist cfg pok eok s t recognized unrecognized
        fr).1.face_tracking id = some td) := by
  have hndm := keys_merge_nodup fdist t fr s.face_tracking recognized unrecognized hnd
  constructor
  · intro id td hfind hnotin hold
    refine dictFind_eq_none ?_
    intro p hp
    simp only [update_face_tracking] at hp
    unfold remove_absent at hp
    rw [List.mem_filter] at hp
    obtain ⟨hp1, hpred⟩ := hp
    unfold remove_flagged at hp1
    rw [List.mem_filter] at hp1
    intro hkey
    have hmem := dictFind_mem hfind
    have hpeq : p = (id, td) :=
      List.inj_on_of_nodup_map hndm hp1.1 hmem (by rw [hkey])
    rw [hpeq] at hpred
    rw [contains_eq, Bool.or_eq_true, decide_eq_true_eq, decide_eq_true_eq] at hpred
    rcases hpred with h | h
    · exact hnotin h
    · exact absurd h (not_le.2 hold)
  · intro id td hfind hyoung
    have hmem := dictFind_mem hfind
    simp only [update_face_tracking]
    refine mem_dictFind ?_ ?_
    · refine List.Sublist.nodup ?_ hndm
      unfold remove_absent remove_flagged
      exact ((List.filter_sublist _).map Prod.fst).trans ((List.filter_sublist _).map Prod.fst)
    · unfold remove_absent
      rw [List.mem_filter]
      refine ⟨hmem, ?_⟩
      rw [Bool.or_eq_true]
      right
      rw [decide_eq_true_eq]
      exact hyoung

/-- The one-track state of the C7 witness: a never-authorized track created
at time 0, evaluated at a cycle at time 3 with no detections. -/
def stateW7 : SysState := ⟨[(0, ⟨0, false, 10, 0, none, 0⟩)], 0, []⟩

/-- Witness for C7 (amended): the untouched 3-second-old track of `stateW7`
is removed by the cycle at time 3. -/
theorem absence_reaping_by_first_seen_witness :
    (stateW7.face_tracking.map Prod.fst).Nodup ∧
    dictFind (update_face_tracking fdistD cfgD true true stateW7 3 [] []
      0).1.face_tracking 0 = none := by
  have hnd : (stateW7.face_tracking.map Prod.fst).Nodup := by
    norm_num [stateW7]
  have hfind : dictFind (merge_detections fdistD 3 0 stateW7.face_tracking [] []).tbl 0 =
      some ⟨0, false, 10, 0, none, 0⟩ := by
    norm_num [merge_detections, dictFind, stateW7]
  refine ⟨hnd, ?_⟩
  exact (absence_reaping_by_first_seen fdistD cfgD true true stateW7 3 [] [] 0 hnd).1
    0 ⟨0, false, 10, 0, none, 0⟩ hfind
    (by norm_num [merge_detections, stateW7]) (by norm_num)

/-- Witness for C8, discharging its key-uniqueness hypothesis at the
concrete state `stateW`: the track that alerts at time 105 is gone from the
final table. -/
theorem reaping_fixed_order_witness :
    (stateW.face_tracking.map Prod.fst).Nodup ∧
    dictFind (update_face_tracking fdistD cfgD true true stateW 105 [] []
      0).1.face_tracking alertW.id = none := by
  have hnd : (stateW.face_tracking.map Prod.fst).Nodup := by
    norm_num [stateW]
  refine ⟨hnd, ?_⟩
  exact (reaping_fixed_order fdistD cfgD true true stateW 105 [] [] 0 hnd).2 alertW
    (by rw [alertW_mem]; exact List.mem_singleton.2 rfl)

end SecuritySystem

